import Mathlib

/-!
Shallow embedding of the binary type inference core (constraint generation,
points-to offset normalization, and type lowering) together with theorems
settling the specification claims.

Conventions of the embedding:
* Rust `usize` values are `Nat`, Rust `i64` offsets are `Int`.
* `BTreeMap` / `HashMap` values are association lists with overwriting
  insert; `BTreeSet` values are sorted duplicate-free lists.
* `ConstraintSet` (a Rust `BTreeSet`) is modelled as a list considered up to
  membership; the union used by the generator appends the new elements that
  are not already present.
* Stateful methods on `LoweringContext` become functions threading an
  explicit `LoweringState`.
-/

namespace BinTypeInf

/-! ## Field labels and constraints (src/constraints, as used by the core) -/

/-- Field labels of derived type variables: `In(k)`, `Out(k)`, `Load`,
`Store` and `Field(offset, size)` (byte offset, bit size). The offset of a
`Field` is a signed integer (`i64` in the source). -/
inductive FieldLabel where
  | In : Nat → FieldLabel
  | Out : Nat → FieldLabel
  | Load : FieldLabel
  | Store : FieldLabel
  | Field : Int → Nat → FieldLabel
deriving DecidableEq, Repr

/-- A derived type variable: a base type-variable name plus a label path. -/
structure DerivedTypeVar where
  base : String
  labels : List FieldLabel
deriving DecidableEq, Repr

/-- A subtype constraint `lhs ⊑ rhs`. -/
structure SubtypeConstraint where
  lhs : DerivedTypeVar
  rhs : DerivedTypeVar
deriving DecidableEq, Repr

/-- A constraint set, modelled as a list up to membership. -/
abbrev ConstraintSet := List SubtypeConstraint

/-- Union of two constraint sets (the source folds `BTreeSet::union`):
append the constraints of the second set not already present. -/
def csUnion (x y : ConstraintSet) : ConstraintSet :=
  x ++ y.filter (fun c => decide (c ∉ x))

/-! ## Constraint generation (src/constraint_generation/mod.rs) -/

/-- IR expressions; constraint generation only distinguishes `Var` from the
remaining expression forms, which are collapsed into `Other`. -/
inductive Expression where
  | Var : String → Expression
  | Other : Expression
deriving DecidableEq, Repr

/-- IR definitions appearing in a block. -/
inductive Def where
  | Load : String → Expression → Def
  | Store : Expression → Expression → Def
  | Assign : String → Expression → Def
deriving DecidableEq, Repr

/-- The register mapping of a `NodeContext`: `access(var)` returns the type
variable representing the register and a set of auxiliary constraints. -/
def RegisterMapping := String → String × ConstraintSet

/-- `NodeContext::generate_expression_constraint`: for `Var(v2)` emit the
singleton `access(v2) ⊑ lhs` together with the auxiliary constraints of the
access; for any other expression, the empty set. -/
def generate_expression_constraint (reg_map : RegisterMapping)
    (lhs_type_var : String) (value : Expression) : ConstraintSet :=
  match value with
  | Expression.Var v2 =>
      let (rhs_type_var, additional_constraints) := reg_map v2
      csUnion [⟨⟨rhs_type_var, []⟩, ⟨lhs_type_var, []⟩⟩] additional_constraints
  | _ => ([] : ConstraintSet)

/-- `NodeContext::handle_def`: the source returns `ConstraintSet::default()`
(the empty set) in every branch of the match on the definition. -/
def handle_def (_reg_map : RegisterMapping) (df : Def) : ConstraintSet :=
  match df with
  | Def.Load _ _ => ([] : ConstraintSet)
  | Def.Store _ _ => ([] : ConstraintSet)
  | Def.Assign _ _ => ([] : ConstraintSet)

/-- `NodeContext::handle_block_start`: fold the per-definition constraint
sets of the block into one set by union. -/
def handle_block_start (reg_map : RegisterMapping) (defs : List Def) :
    ConstraintSet :=
  (defs.map (handle_def reg_map)).foldl csUnion ([] : ConstraintSet)

/-- CFG nodes as `Context::generate_constraints_for_node` distinguishes
them; only the block's definitions matter to the generator. -/
inductive CfgNode where
  | BlkStart : List Def → CfgNode
  | CallReturn : CfgNode
  | CallSource : CfgNode
  | BlkEnd : CfgNode
deriving DecidableEq, Repr

/-- `Context::generate_constraints_for_node`: `BlkStart` delegates to
`handle_block_start`; call-source, call-return and block-end nodes return
the default (empty) set, as does a node with no node context. -/
def generate_constraints_for_node (reg_map : RegisterMapping) :
    CfgNode → ConstraintSet
  | CfgNode.BlkStart defs => handle_block_start reg_map defs
  | CfgNode.CallReturn => ([] : ConstraintSet)
  | CfgNode.CallSource => ([] : ConstraintSet)
  | CfgNode.BlkEnd => ([] : ConstraintSet)

/-- `Context::generate_constraints`: union of the per-node sets over the
graph's nodes. -/
def generate_constraints (reg_map : RegisterMapping)
    (nodes : List CfgNode) : ConstraintSet :=
  nodes.foldl
    (fun cs nd => csUnion cs (generate_constraints_for_node reg_map nd))
    ([] : ConstraintSet)

/-! ## Points-to offset normalization (src/node_context/points_to.rs) -/

/-- Rust `char::is_whitespace`: the Unicode `White_Space` property. -/
def rustIsWhitespace (c : Char) : Bool :=
  let n := c.toNat
  (9 ≤ n && n ≤ 13) || n = 32 || n = 133 || n = 160 || n = 0x1680 ||
    (0x2000 ≤ n && n ≤ 0x200A) || n = 0x2028 || n = 0x2029 || n = 0x202F ||
    n = 0x205F || n = 0x3000

/-- The result of resolving one memory access: an optional normalized byte
offset, the interned type-variable name, and the access size. -/
structure TypeVariableAccess where
  offset : Option Int
  ty_var : String
  sz : Nat
deriving DecidableEq, Repr

/-- Offset normalization inside `memory_access_into_tvar`: when the accessed
object is the current stack object and the stack pointer has a unique target
with a concrete offset `curr_size`, replace `off` by `off - curr_size`;
otherwise leave the offset unchanged. -/
def normalizeOffset (isStack : Bool) (spOff : Option Int) (off : Int) : Int :=
  if isStack then
    match spOff with
    | some curr_size => off - curr_size
    | none => off
  else off

/-- `PointsToContext::memory_access_into_tvar`. `isStack` models
`pointer_state.stack_id == object_id`; `spOff` models the stack pointer's
unique-target concrete offset when available; `off` models
`offset.try_to_offset().ok()`; `objId` is the abstract identifier's string
rendering. Negative normalized offsets become `none` (with a warning in the
source); the type-variable name is the identifier string with all
whitespace characters filtered out. -/
def memory_access_into_tvar (isStack : Bool) (spOff : Option Int)
    (objId : String) (off : Option Int) (sz : Nat) : TypeVariableAccess :=
  { offset := off.bind (fun o =>
      let curr_offset := normalizeOffset isStack spOff o
      if curr_offset < 0 then none else some curr_offset),
    ty_var := String.mk (objId.data.filter (fun c => !(rustIsWhitespace c))),
    sz := sz }

/-! ## Type lowering data model (src/lowering/mod.rs) -/

/-- A parameter at a given index (`Parameter` in the source); the type index
is a `TypeId` (a `usize`). -/
structure Parameter where
  index : Nat
  type_index : Nat
deriving DecidableEq, Repr

/-- A structure field with byte offset, bit size and type id (`Field` in the
lowering module; offsets are `usize` there, negativity having been filtered
out by `translate_field`). -/
structure Field where
  byte_offset : Nat
  bit_sz : Nat
  type_index : Nat
deriving DecidableEq, Repr

/-- The lowered C types. `Alias` holds a sketch node index; `Union` holds a
sorted duplicate-free list of type ids (a `BTreeSet` in the source). -/
inductive CType where
  | Primitive : String → CType
  | Pointer : Nat → CType
  | Alias : Nat → CType
  | Structure : List Field → CType
  | Function : List Parameter → Option Nat → CType
  | Union : List Nat → CType
deriving DecidableEq, Repr

/-- Insert into a sorted duplicate-free list of naturals (`BTreeSet`
insertion). -/
def sortedInsert (x : Nat) : List Nat → List Nat
  | [] => [x]
  | y :: ys =>
      if x < y then x :: y :: ys
      else if x = y then y :: ys
      else y :: sortedInsert x ys

/-- Collect a list of naturals into a sorted duplicate-free list, as
collecting into a `BTreeSet` and iterating it does. -/
def sortedDedup (l : List Nat) : List Nat :=
  l.foldl (fun acc x => sortedInsert x acc) []

/-- Overwriting insert into an association list (`BTreeMap`/`HashMap`
insert). -/
def assocInsert {α : Type} (k : Nat) (v : α) : List (Nat × α) → List (Nat × α)
  | [] => [(k, v)]
  | (k', v') :: rest =>
      if k = k' then (k, v) :: rest else (k', v') :: assocInsert k v rest

/-- Lookup in an association list. -/
def assocLookup {α : Type} : List (Nat × α) → Nat → Option α
  | [], _ => none
  | (k, v) :: rest, q => if q = k then some v else assocLookup rest q

/-! ## Field scheduling (Classroom / schedule_structures) -/

/-- A `Classroom`: a partial structure under construction. `covering` is the
`BTreeMap<usize, usize>` from scheduled byte offsets to bit sizes. -/
structure Classroom where
  scheduled : List Field
  covering : List (Nat × Nat)
deriving DecidableEq, Repr

/-- `Classroom::new`. -/
def Classroom.new : Classroom := ⟨[], []⟩

/-- `Classroom::compute_upper_bound_exclusive`: `base + size / 8`. -/
def compute_upper_bound_exclusive (base size : Nat) : Nat := base + size / 8

/-- `Classroom::compute_fld_upper_bound_exlcusive` (sic). -/
def compute_fld_upper_bound_exlcusive (fld : Field) : Nat :=
  compute_upper_bound_exclusive fld.byte_offset fld.bit_sz

/-- `Classroom::get_next_scheduluable_offset` (sic): exclusive upper bound
of the last scheduled field, or `usize::MIN = 0` when none is scheduled. -/
def Classroom.get_next_scheduluable_offset (c : Classroom) : Nat :=
  match c.scheduled.getLast? with
  | some fld => compute_fld_upper_bound_exlcusive fld
  | none => 0

/-- `Classroom::superscedes_fld` (sic): ranges over the covering entries
with key in `[fld.byte_offset, upper(fld))` and asks whether any of them
starts strictly before `fld.byte_offset` and ends at or after `fld`'s upper
bound. -/
def Classroom.superscedes_fld (c : Classroom) (fld : Field) : Bool :=
  c.covering.any (fun p =>
    (fld.byte_offset ≤ p.1 && p.1 < compute_fld_upper_bound_exlcusive fld) &&
    (p.1 < fld.byte_offset &&
      compute_fld_upper_bound_exlcusive fld ≤ compute_upper_bound_exclusive p.1 p.2))

/-- `Classroom::schedule_fld`: refuse when the next schedulable offset
exceeds the field's offset; otherwise record the field in the covering map
and append it to the scheduled list. `none` models returning `false`. -/
def Classroom.schedule_fld (c : Classroom) (fld : Field) : Option Classroom :=
  if c.get_next_scheduluable_offset > fld.byte_offset then none
  else some
    { scheduled := c.scheduled ++ [fld],
      covering := assocInsert fld.byte_offset fld.bit_sz c.covering }

/-- `translate_field`: convert a constraint-level field (signed offset) to a
lowering field; `usize::try_from` fails exactly on negative offsets, and
such fields are dropped. -/
def translate_field (offset : Int) (size : Nat) (idx : Nat) : Option Field :=
  if offset < 0 then none
  else some { byte_offset := offset.toNat, bit_sz := size, type_index := idx }

/-- Pop a classroom with minimal next-schedulable offset from the heap
(Rust's `BinaryHeap::peek_mut` under the flipped `Ord` on `Classroom`).
Ties resolve to the earliest element of the list model. -/
def popMin : List Classroom → Option (Classroom × List Classroom)
  | [] => none
  | c :: rest =>
      match popMin rest with
      | none => some (c, [])
      | some (m, rest') =>
          if c.get_next_scheduluable_offset ≤ m.get_next_scheduluable_offset then
            some (c, rest)
          else some (m, c :: rest')

/-- One iteration of the scheduling loop of `schedule_structures` for a
single field: skip it when some classroom supersedes it, otherwise try to
schedule it into the minimal classroom and fall back to opening a new
classroom. (The `none` fallbacks of the inner matches are unreachable:
scheduling into a fresh classroom always succeeds, as the source asserts.) -/
def scheduleStep (hp : List Classroom) (fld : Field) : List Classroom :=
  if hp.any (fun cls => cls.superscedes_fld fld) then hp
  else
    match popMin hp with
    | some (cls, rest) =>
        match cls.schedule_fld fld with
        | some cls' => cls' :: rest
        | none =>
            match Classroom.new.schedule_fld fld with
            | some fresh => fresh :: hp
            | none => hp
    | none =>
        match Classroom.new.schedule_fld fld with
        | some fresh => fresh :: hp
        | none => hp

/-- Stable insertion of a field into a list sorted by ascending byte
offset: the field goes after every field with offset ≤ its own. -/
def insertByOffset (fld : Field) : List Field → List Field
  | [] => [fld]
  | g :: gs =>
      if g.byte_offset ≤ fld.byte_offset then g :: insertByOffset fld gs
      else fld :: g :: gs

/-- Stable sort by ascending byte offset (`sort_by_key` is stable). -/
def sortByOffset (fields : List Field) : List Field :=
  fields.foldl (fun acc fld => insertByOffset fld acc) []

/-- `schedule_structures`: sort the fields by offset, run the scheduling
loop, and emit one `Structure` per classroom. -/
def schedule_structures (fields : List Field) : List CType :=
  let sorted_fields := sortByOffset fields
  let hp := sorted_fields.foldl scheduleStep []
  hp.map (fun cls => CType.Structure cls.scheduled)

/-! ## The lowering context (LoweringContext) -/

/-- The mutable part of `LoweringContext`: the ephemeral type map, the
primitive cache, and the next fresh type id. -/
structure LoweringState where
  ephemeral_types : List (Nat × CType)
  cached_primitivies : List (Nat × String)
  curr_id : Nat
deriving DecidableEq, Repr

/-- Lookup of a primitive name in the cache (`cached_primitivies` maps the
name to its type id; we store `(id, name)` pairs so the ephemeral map and
the cache share the association-list helpers keyed by `Nat`, and search by
name here). -/
def cacheLookup (cache : List (Nat × String)) (nm : String) : Option Nat :=
  (cache.find? (fun p => p.2 = nm)).map (fun p => p.1)

/-- `LoweringContext::add_type`: allocate the next id, bump the counter, and
record the type in the ephemeral map. -/
def add_type (st : LoweringState) (ty : CType) : Nat × LoweringState :=
  (st.curr_id,
   { st with
      curr_id := st.curr_id + 1,
      ephemeral_types := assocInsert st.curr_id ty st.ephemeral_types })

/-- `LoweringContext::build_terminal_type`: return the cached primitive id
for the node's upper-bound lattice name, or allocate and cache a new
`Primitive`. -/
def build_terminal_type (st : LoweringState) (nm : String) :
    Nat × LoweringState :=
  match cacheLookup st.cached_primitivies nm with
  | some id => (id, st)
  | none =>
      let (res, st') := add_type st (CType.Primitive nm)
      (res, { st' with cached_primitivies := (res, nm) :: st'.cached_primitivies })

/-- A sketch node as the lowering sees it: its outgoing edges (field label
and target node index, in edge-iteration order) and the name of its upper
lattice bound. -/
structure SketchNode where
  edges : List (FieldLabel × Nat)
  upperName : String
deriving DecidableEq, Repr

/-- `has_non_zero_fields`: some outgoing `Field` edge has non-zero offset. -/
def has_non_zero_fields (edges : List (FieldLabel × Nat)) : Bool :=
  edges.any (fun e =>
    match e.1 with
    | FieldLabel.Field off _ => off ≠ 0
    | _ => false)

/-- `build_alias_types`: empty when a non-zero-offset field exists;
otherwise one `Alias` per distinct target of a `Field` edge (a `BTreeSet`
of targets). -/
def build_alias_types (edges : List (FieldLabel × Nat)) : List CType :=
  if has_non_zero_fields edges then []
  else
    let unique_tgts := sortedDedup (edges.filterMap (fun e =>
      match e.1 with
      | FieldLabel.Field _ _ => some e.2
      | _ => none))
    unique_tgts.map CType.Alias

/-- The field-collection loop of `build_structure_types`: for every `Field`
edge allocate an `Alias` type for the target (the source evaluates
`self.add_type(CType::Alias(e.target()))` before `translate_field` decides
whether to keep the field) and keep the translated field when the offset is
non-negative. -/
def build_structure_fields (st : LoweringState) :
    List (FieldLabel × Nat) → List Field × LoweringState
  | [] => ([], st)
  | e :: rest =>
      match e.1 with
      | FieldLabel.Field off sz =>
          let (tid, st1) := add_type st (CType.Alias e.2)
          let (flds, st2) := build_structure_fields st1 rest
          (match translate_field off sz tid with
           | some fld => (fld :: flds, st2)
           | none => (flds, st2))
      | _ => build_structure_fields st rest

/-- `LoweringContext::build_structure_types`: nothing unless some field has
a non-zero offset; otherwise schedule the translated fields. -/
def build_structure_types (st : LoweringState)
    (edges : List (FieldLabel × Nat)) : List CType × LoweringState :=
  if !has_non_zero_fields edges then ([], st)
  else
    let (flds, st') := build_structure_fields st edges
    (schedule_structures flds, st')

/-- The allocation loop of `build_pointer_types`: one `Pointer` per distinct
`Load`/`Store` target, each pointing at a freshly allocated `Alias`. -/
def build_pointer_list (st : LoweringState) :
    List Nat → List CType × LoweringState
  | [] => ([], st)
  | tgt :: rest =>
      let (tid, st1) := add_type st (CType.Alias tgt)
      let (ptrs, st2) := build_pointer_list st1 rest
      (CType.Pointer tid :: ptrs, st2)

/-- `LoweringContext::build_pointer_types`. -/
def build_pointer_types (st : LoweringState)
    (edges : List (FieldLabel × Nat)) : List CType × LoweringState :=
  let load_or_store_targets := sortedDedup (edges.filterMap (fun e =>
    match e.1 with
    | FieldLabel.Load => some e.2
    | FieldLabel.Store => some e.2
    | _ => none))
  build_pointer_list st load_or_store_targets

/-- Allocate one `Alias` type per target, returning the ids in order
(the `types.into_iter().map(add_type(Alias))` loop of `collect_params`). -/
def addAliasList (st : LoweringState) : List Nat → List Nat × LoweringState
  | [] => ([], st)
  | t :: ts =>
      let (tid, st1) := add_type st (CType.Alias t)
      let (ids, st2) := addAliasList st1 ts
      (tid :: ids, st2)

/-- The targets collected for one parameter index by
`LoweringContext::collect_params` (the `BTreeMap<usize, Vec<NodeIndex>>`
entry for `idx`, in edge order). -/
def collect_param_targets (edges : List (FieldLabel × Nat))
    (sel : FieldLabel → Option Nat) (idx : Nat) : List Nat :=
  edges.filterMap (fun e =>
    match sel e.1 with
    | some i => if i = idx then some e.2 else none
    | none => none)

/-- The per-index loop of `collect_params`: empty target lists are skipped,
a unique target becomes an `Alias`, several targets become a `Union` of
`Alias`es. -/
def collect_params_go (st : LoweringState) (edges : List (FieldLabel × Nat))
    (sel : FieldLabel → Option Nat) :
    List Nat → List Parameter × LoweringState
  | [] => ([], st)
  | idx :: rest =>
      match collect_param_targets edges sel idx with
      | [] => collect_params_go st edges sel rest
      | [t] =>
          let (tid, st1) := add_type st (CType.Alias t)
          let (ps, st2) := collect_params_go st1 edges sel rest
          (⟨idx, tid⟩ :: ps, st2)
      | t1 :: t2 :: ts =>
          let (ids, st1) := addAliasList st (t1 :: t2 :: ts)
          let (utid, st2) := add_type st1 (CType.Union (sortedDedup ids))
          let (ps, st3) := collect_params_go st2 edges sel rest
          (⟨idx, utid⟩ :: ps, st3)

/-- `LoweringContext::collect_params`: group edge targets by the selected
parameter index (`BTreeMap` iteration is in ascending index order). -/
def collect_params (st : LoweringState) (edges : List (FieldLabel × Nat))
    (sel : FieldLabel → Option Nat) : List Parameter × LoweringState :=
  collect_params_go st edges sel
    (sortedDedup (edges.filterMap (fun e => sel e.1)))

/-- The selector for `In(k)` edges. -/
def selIn : FieldLabel → Option Nat
  | FieldLabel.In idx => some idx
  | _ => none

/-- The selector for `Out(k)` edges. -/
def selOut : FieldLabel → Option Nat
  | FieldLabel.Out idx => some idx
  | _ => none

/-- The `HashMap` from parameter index to type index built at the start of
`build_return_type_structure` (`collect` lets later entries win). -/
def paramMap (params : List Parameter) (i : Nat) : Option Nat :=
  assocLookup
    (params.foldl (fun m p => assocInsert p.index p.type_index m) []) i

/-- The field loop of `build_return_type_structure`: walk the declared
formal out-locations (modelled by their byte sizes, so a location of byte
size `a` has `as_bit_length() = 8 * a`), laying each field at the running
offset and taking the computed out-parameter type at the matching index or
a default primitive. -/
def build_ret_fields (st : LoweringState) (mp : Nat → Option Nat)
    (defName : String) (curr_off i : Nat) :
    List Nat → List Field × LoweringState
  | [] => ([], st)
  | a :: rest =>
      let (tid, st1) :=
        match mp i with
        | some t => (t, st)
        | none => build_terminal_type st defName
      let (flds, st2) :=
        build_ret_fields st1 mp defName (curr_off + 8 * a / 8) (i + 1) rest
      ({ byte_offset := curr_off, bit_sz := 8 * a, type_index := tid } :: flds,
       st2)

/-- `LoweringContext::build_return_type_structure`. -/
def build_return_type_structure (st : LoweringState)
    (orig_param_locs : List Nat) (params : List Parameter)
    (defName : String) : CType × LoweringState :=
  let (flds, st') :=
    build_ret_fields st (paramMap params) defName 0 0 orig_param_locs
  (CType.Structure flds, st')

/-- Stable insertion by ascending parameter index (`sort_by_key` on
`p.index`). -/
def insertByIndex (p : Parameter) : List Parameter → List Parameter
  | [] => [p]
  | q :: qs =>
      if q.index ≤ p.index then q :: insertByIndex p qs else p :: q :: qs

/-- Stable sort of parameters by ascending index. -/
def sortByIndex (params : List Parameter) : List Parameter :=
  params.foldl (fun acc p => insertByIndex p acc) []

/-- `LoweringContext::build_function_types`. `declaredOuts` is the entry of
the out-parameter map for this node (`out_params.get(&nd).unwrap_or(&def)`),
as the list of byte sizes of the declared formal out-locations. -/
def build_function_types (st : LoweringState)
    (edges : List (FieldLabel × Nat)) (declaredOuts : List Nat)
    (defName : String) : List CType × LoweringState :=
  let (in_params, st1) := collect_params st edges selIn
  let (out_params0, st2) := collect_params st1 edges selOut
  let out_params := sortByIndex out_params0
  let (oparam, st3) :=
    if out_params.length > 1 || declaredOuts.length > 1 then
      let (ret_struct, st') :=
        build_return_type_structure st2 declaredOuts out_params defName
      let (sid, st'') := add_type st' ret_struct
      (some sid, st'')
    else
      (((out_params.get? 0).map (fun p => p.type_index)), st2)
  if !in_params.isEmpty || !out_params.isEmpty then
    ([CType.Function in_params oparam], st3)
  else
    ([], st3)

/-- Allocate ids for a list of candidate types in order (the
`total_types.into_iter().map(|x| self.add_type(x))` loop of `build_type`). -/
def addAllTypes (st : LoweringState) : List CType → List Nat × LoweringState
  | [] => ([], st)
  | t :: ts =>
      let (tid, st1) := add_type st t
      let (ids, st2) := addAllTypes st1 ts
      (tid :: ids, st2)

/-- The candidate concatenation of `build_type`: structure, alias, pointer
and function candidates in that order, with the state threaded through the
allocating builders. -/
def build_candidates (st : LoweringState) (nd : SketchNode)
    (declaredOuts : List Nat) (defName : String) :
    List CType × LoweringState :=
  let (struct_types, st1) := build_structure_types st nd.edges
  let alias_types := build_alias_types nd.edges
  let (pointer_types, st2) := build_pointer_types st1 nd.edges
  let (function_types, st3) :=
    build_function_types st2 nd.edges declaredOuts defName
  (struct_types ++ alias_types ++ pointer_types ++ function_types, st3)

/-- `LoweringContext::build_type`: terminal nodes get a primitive; otherwise
a single candidate is registered directly and several (or zero) candidates
become a `Union`. -/
def build_type (st : LoweringState) (nd : SketchNode)
    (declaredOuts : List Nat) (defName : String) : Nat × LoweringState :=
  if nd.edges.length = 0 then build_terminal_type st nd.upperName
  else
    let (total_types, st3) := build_candidates st nd declaredOuts defName
    match total_types with
    | [t] => add_type st3 t
    | _ =>
        let (ids, st4) := addAllTypes st3 total_types
        add_type st4 (CType.Union (sortedDedup ids))

/-- A sketch graph as consumed by `collect_ctypes`: the nodes in index
order, the out-parameter map keyed by node index, and the default lattice
element's name. -/
structure SketchGraph where
  nodes : List SketchNode
  outParams : List (Nat × List Nat)
  defaultName : String

/-- The initial lowering state built by `LoweringContext::new`: the first
fresh id is one past the maximal node index (or `0.max + 1 = 1` on an empty
graph, matching `max().unwrap_or(0) + 1`). -/
def initialState (g : SketchGraph) : LoweringState :=
  { ephemeral_types := [],
    cached_primitivies := [],
    curr_id := (List.range g.nodes.length).foldl max 0 + 1 }

/-- The node loop of `collect_ctypes`, over the node indices paired with
their nodes. -/
def collect_ctypes_go (g : SketchGraph) (st : LoweringState)
    (types : List (Nat × Nat)) :
    List (Nat × SketchNode) → List (Nat × Nat) × LoweringState
  | [] => (types, st)
  | (i, nd) :: rest =>
      let (tid, st') :=
        build_type st nd ((assocLookup g.outParams i).getD []) g.defaultName
      collect_ctypes_go g st' (assocInsert i tid types) rest

/-- `LoweringContext::collect_ctypes`: build a type for every node of the
graph and return `Ok` of the node-to-type map and the ephemeral type map
(the source is infallible; `anyhow::Result` is modelled by `Except`). -/
def collect_ctypes (g : SketchGraph) :
    Except String (List (Nat × Nat) × List (Nat × CType)) :=
  let (types, stF) :=
    collect_ctypes_go g (initialState g) []
      ((List.range g.nodes.length).zip g.nodes)
  Except.ok (types, stF.ephemeral_types)

/-! ## Theorems -/

/-- Claim C1: the spec says `Assign(var, Var(v2))` in a `BlkStart` block
emits `access(v2) ⊑ access(var)`, but `NodeContext::handle_def` returns the
empty constraint set for every definition kind — the fully written
`generate_expression_constraint` (which does emit exactly that constraint,
third conjunct) is never called — so the block's constraint set is empty
and the claimed constraint is absent. -/
theorem handle_block_start_assign_empty (reg_map : RegisterMapping) :
    generate_constraints reg_map
      [CfgNode.BlkStart [Def.Assign "RDI" (Expression.Var "RSI")]] = [] ∧
    (SubtypeConstraint.mk ⟨(reg_map "RSI").1, []⟩ ⟨(reg_map "RDI").1, []⟩ ∉
      generate_constraints reg_map
        [CfgNode.BlkStart [Def.Assign "RDI" (Expression.Var "RSI")]]) ∧
    (SubtypeConstraint.mk ⟨(reg_map "RSI").1, []⟩ ⟨(reg_map "RDI").1, []⟩ ∈
      generate_expression_constraint reg_map (reg_map "RDI").1
        (Expression.Var "RSI")) := by
  refine ⟨rfl, ?_, ?_⟩
  · simp [generate_constraints, generate_constraints_for_node,
      handle_block_start, handle_def, csUnion]
  · simp only [generate_expression_constraint, csUnion]
    exact List.mem_append_left _ (List.mem_singleton.mpr rfl)

/-- Claim C2: `Classroom::superscedes_fld` can never hold — it ranges over
covering entries with key at least `fld.byte_offset` and then demands a key
strictly below `fld.byte_offset` — so a field strictly contained in another
is never dropped; on the spec's own example `(0,64)`, `(2,16)` the scheduler
emits two structures and the contained field `(2,16)` survives. -/
theorem contained_field_never_dropped :
    (∀ (cls : Classroom) (fld : Field), cls.superscedes_fld fld = false) ∧
    (schedule_structures [⟨0, 64, 1⟩, ⟨2, 16, 2⟩]).length = 2 ∧
    CType.Structure [⟨2, 16, 2⟩] ∈ schedule_structures [⟨0, 64, 1⟩, ⟨2, 16, 2⟩] := by
  refine ⟨fun cls fld => ?_, by decide, by decide⟩
  simp only [Classroom.superscedes_fld, List.any_eq_false]
  intro p _
  simp only [Bool.and_eq_true, decide_eq_true_eq, Bool.and_eq_false_iff,
    decide_eq_false_iff_not, not_and, not_le, not_lt]
  omega

/-- Claim C3: an access whose offset is negative after normalization against
the current stack pointer yields a `TypeVariableAccess` with `offset = none`,
and `translate_field` drops every field whose (signed) offset is negative,
so no negative offset reaches a lowered `Structure`. -/
theorem negative_offset_suppressed :
    (∀ (isStack : Bool) (spOff : Option Int) (objId : String) (o : Int)
        (sz : Nat),
      normalizeOffset isStack spOff o < 0 →
      (memory_access_into_tvar isStack spOff objId (some o) sz).offset = none) ∧
    (∀ (offset : Int) (size idx : Nat),
      offset < 0 → translate_field offset size idx = none) := by
  constructor
  · intro isStack spOff objId o sz h
    simp [memory_access_into_tvar, h]
  · intro offset size idx h
    simp [translate_field, h]

/-- Witness for claim C3: a stack access at offset 0 with stack-pointer
offset 8 normalizes to `-8` and is suppressed, and `translate_field` drops
the offset `-8`. -/
theorem negative_offset_suppressed_witness :
    (normalizeOffset true (some 8) 0 < 0 ∧
      (memory_access_into_tvar true (some 8) "RSP" (some 0) 4).offset = none) ∧
    ((-8 : Int) < 0 ∧ translate_field (-8) 32 7 = none) :=
  ⟨⟨by decide, negative_offset_suppressed.1 true (some 8) "RSP" 0 4 (by decide)⟩,
   ⟨by decide, negative_offset_suppressed.2 (-8) 32 7 (by decide)⟩⟩

/-- Claim C6: a node never yields both alias and structure candidates —
`build_alias_types` is empty as soon as some `Field` edge has a non-zero
offset, and `build_structure_types` is empty when none has. -/
theorem alias_structure_exclusive (st : LoweringState)
    (edges : List (FieldLabel × Nat)) :
    build_alias_types edges = [] ∨ (build_structure_types st edges).1 = [] := by
  cases h : has_non_zero_fields edges
  · right
    simp [build_structure_types, h]
  · left
    simp [build_alias_types, h]

/-- The type ids returned by a sequence of `add_type` calls starting from a
given state, in call order. -/
def run_add_types (st : LoweringState) : List CType → List Nat
  | [] => []
  | t :: ts =>
      let (tid, st') := add_type st t
      tid :: run_add_types st' ts

/-- Every id returned by a run of `add_type` calls is at least the starting
fresh-id counter. -/
theorem run_add_types_ge (ts : List CType) :
    ∀ (st : LoweringState), ∀ x ∈ run_add_types st ts, st.curr_id ≤ x := by
  induction ts with
  | nil => intro st x hx; simp [run_add_types] at hx
  | cons t ts ih =>
      intro st x hx
      simp only [run_add_types, add_type, List.mem_cons] at hx
      rcases hx with h | h
      · exact h ▸ Nat.le_refl _
      · have := ih _ x h
        simp only [add_type] at this
        omega

/-- Claim C8: type-id allocation is strictly monotone — in any sequence of
`add_type` calls on a lowering context, every call returns an id strictly
greater than each id returned before it. -/
theorem add_type_ids_strictly_increasing (st : LoweringState)
    (ts : List CType) : (run_add_types st ts).Pairwise (· < ·) := by
  induction ts generalizing st with
  | nil => exact List.Pairwise.nil
  | cons t ts ih =>
      simp only [run_add_types]
      refine List.Pairwise.cons ?_ (ih _)
      intro x hx
      have := run_add_types_ge ts (add_type st t).2 x hx
      simp only [add_type] at this ⊢
      omega

/-- Claim C10: every character of the type-variable name produced by
`memory_access_into_tvar` is non-whitespace — the identifier rendering is
filtered before interning. -/
theorem tvar_name_no_whitespace (isStack : Bool) (spOff : Option Int)
    (objId : String) (off : Option Int) (sz : Nat) (c : Char)
    (hc : c ∈ (memory_access_into_tvar isStack spOff objId off sz).ty_var.data) :
    rustIsWhitespace c = false := by
  simp only [memory_access_into_tvar] at hc
  have := List.of_mem_filter hc
  simpa using this

/-- Witness for claim C10: the identifier rendering `"stack RSP"` contains a
space, and the character `R` of the produced name is not whitespace. -/
theorem tvar_name_no_whitespace_witness :
    ('R' ∈ (memory_access_into_tvar true (some 8) "stack RSP" (some 0) 4).ty_var.data) ∧
    rustIsWhitespace 'R' = false :=
  ⟨by decide,
   tvar_name_no_whitespace true (some 8) "stack RSP" (some 0) 4 'R' (by decide)⟩

/-! ### Association-list lemmas -/

theorem assocLookup_insert_self {α : Type} (m : List (Nat × α)) (k : Nat)
    (v : α) : assocLookup (assocInsert k v m) k = some v := by
  induction m with
  | nil => simp [assocInsert, assocLookup]
  | cons p rest ih =>
      by_cases h : k = p.1
      · simp [assocInsert, h, assocLookup]
      · simp [assocInsert, h, assocLookup, ih]

theorem assocLookup_insert_ne {α : Type} (m : List (Nat × α)) (k i : Nat)
    (v : α) (h : i ≠ k) :
    assocLookup (assocInsert k v m) i = assocLookup m i := by
  induction m with
  | nil => simp [assocInsert, assocLookup, h]
  | cons p rest ih =>
      by_cases hk : k = p.1
      · subst hk
        simp [assocInsert, assocLookup, h]
      · simp only [assocInsert, if_neg hk, assocLookup]
        by_cases hi : i = p.1
        · simp [hi]
        · simp [hi, ih]

theorem assocLookup_mem {α : Type} (m : List (Nat × α)) (k : Nat) (v : α)
    (h : assocLookup m k = some v) : (k, v) ∈ m := by
  induction m with
  | nil => simp [assocLookup] at h
  | cons p rest ih =>
      simp only [assocLookup] at h
      by_cases hk : k = p.1
      · rw [if_pos hk] at h
        have hkv : (k, v) = p := by
          obtain ⟨p1, p2⟩ := p
          simp_all
        rw [hkv]
        exact List.mem_cons_self _ _
      · rw [if_neg hk] at h
        exact List.mem_cons_of_mem _ (ih h)

theorem assocInsert_mem {α : Type} (m : List (Nat × α)) (k : Nat) (v : α)
    (p : Nat × α) (h : p ∈ assocInsert k v m) : p = (k, v) ∨ p ∈ m := by
  induction m with
  | nil => simpa [assocInsert] using h
  | cons q rest ih =>
      simp only [assocInsert] at h
      by_cases hk : k = q.1
      · rw [if_pos hk] at h
        rcases List.mem_cons.mp h with h | h
        · exact Or.inl h
        · exact Or.inr (List.mem_cons_of_mem _ h)
      · rw [if_neg hk] at h
        rcases List.mem_cons.mp h with h | h
        · exact Or.inr (h ▸ List.mem_cons_self _ _)
        · rcases ih h with h' | h'
          · exact Or.inl h'
          · exact Or.inr (List.mem_cons_of_mem _ h')

/-! ### Well-formedness of the lowering state -/

/-- A lowering state is well-formed when every ephemeral type id is below
the fresh-id counter and every cached primitive id maps to the cached
primitive in the ephemeral map. -/
def LoweringState.WF (st : LoweringState) : Prop :=
  (∀ p ∈ st.ephemeral_types, p.1 < st.curr_id) ∧
  (∀ p ∈ st.cached_primitivies,
    assocLookup st.ephemeral_types p.1 = some (CType.Primitive p.2))

/-- The second state extends the first: the counter grew and every resolved
type id keeps its type. -/
def LoweringState.Ext (st st' : LoweringState) : Prop :=
  st.curr_id ≤ st'.curr_id ∧
  ∀ k v, assocLookup st.ephemeral_types k = some v →
    assocLookup st'.ephemeral_types k = some v

theorem LoweringState.Ext.refl (st : LoweringState) : st.Ext st :=
  ⟨Nat.le_refl _, fun _ _ h => h⟩

theorem LoweringState.Ext.trans {s1 s2 s3 : LoweringState} (h1 : s1.Ext s2)
    (h2 : s2.Ext s3) : s1.Ext s3 :=
  ⟨Nat.le_trans h1.1 h2.1, fun k v h => h2.2 k v (h1.2 k v h)⟩

theorem add_type_spec (st : LoweringState) (ty : CType) (h : st.WF) :
    (add_type st ty).2.WF ∧ st.Ext (add_type st ty).2 ∧
    (add_type st ty).1 = st.curr_id ∧
    assocLookup (add_type st ty).2.ephemeral_types (add_type st ty).1 =
      some ty := by
  obtain ⟨hbound, hcache⟩ := h
  refine ⟨⟨?_, ?_⟩, ⟨?_, ?_⟩, rfl, ?_⟩
  · intro p hp
    simp only [add_type] at hp ⊢
    rcases assocInsert_mem _ _ _ _ hp with h' | h'
    · simp [h']
    · exact Nat.lt_succ_of_lt (hbound p h')
  · intro p hp
    simp only [add_type] at hp ⊢
    have hlook := hcache p hp
    have hne : p.1 ≠ st.curr_id := by
      have := hbound _ (assocLookup_mem _ _ _ hlook)
      omega
    rw [assocLookup_insert_ne _ _ _ _ hne]
    exact hlook
  · simp [add_type]
  · intro k v hv
    simp only [add_type]
    have hne : k ≠ st.curr_id := by
      have := hbound _ (assocLookup_mem _ _ _ hv)
      omega
    rw [assocLookup_insert_ne _ _ _ _ hne]
    exact hv
  · simp only [add_type]
    exact assocLookup_insert_self _ _ _

theorem build_terminal_type_spec (st : LoweringState) (nm : String)
    (h : st.WF) :
    (build_terminal_type st nm).2.WF ∧ st.Ext (build_terminal_type st nm).2 ∧
    assocLookup (build_terminal_type st nm).2.ephemeral_types
      (build_terminal_type st nm).1 = some (CType.Primitive nm) := by
  unfold build_terminal_type
  cases hc : cacheLookup st.cached_primitivies nm with
  | some id =>
      refine ⟨h, LoweringState.Ext.refl st, ?_⟩
      obtain ⟨-, hcache⟩ := h
      simp only [cacheLookup, Option.map_eq_some'] at hc
      obtain ⟨p, hp, hid⟩ := hc
      have hnm : p.2 = nm := by
        have := List.find?_some hp
        simpa using this
      have hmem := List.mem_of_find?_eq_some hp
      have := hcache p hmem
      simpa [hid, hnm] using this
  | none =>
      obtain ⟨hwf', hext, hid, hlook⟩ := add_type_spec st (CType.Primitive nm) h
      refine ⟨⟨?_, ?_⟩, ?_, ?_⟩
      · intro p hp
        exact hwf'.1 p hp
      · intro p hp
        simp only [List.mem_cons] at hp
        rcases hp with hp | hp
        · subst hp
          exact hlook
        · exact hwf'.2 p hp
      · exact ⟨hext.1, hext.2⟩
      · exact hlook

/-! ### Claim C7: single candidates are registered directly -/

/-- Claim C7: when a node with at least one outgoing edge produces exactly
one candidate type from the concatenated structure, alias, pointer and
function candidate lists, `build_type` registers exactly that candidate
under the returned type id — it is never wrapped in a singleton `Union`. -/
theorem single_candidate_registered_directly (st : LoweringState)
    (nd : SketchNode) (declaredOuts : List Nat) (defName : String)
    (t : CType) (hne : nd.edges ≠ [])
    (hone : (build_candidates st nd declaredOuts defName).1 = [t]) :
    assocLookup
      (build_type st nd declaredOuts defName).2.ephemeral_types
      (build_type st nd declaredOuts defName).1 = some t := by
  have hlen : ¬ nd.edges.length = 0 := by
    simpa [List.length_eq_zero] using hne
  rcases hbc : build_candidates st nd declaredOuts defName with ⟨total, st3⟩
  rw [hbc] at hone
  simp only at hone
  subst hone
  simp only [build_type, if_neg hlen, hbc]
  simp only [add_type]
  exact assocLookup_insert_self _ _ _

/-- Witness for claim C7: a node with a single `Load` edge produces exactly
the pointer candidate `Pointer 5`, and `build_type` maps its returned id to
that candidate. -/
theorem single_candidate_registered_directly_witness :
    assocLookup
      (build_type ⟨[], [], 5⟩ ⟨[(FieldLabel.Load, 0)], "top"⟩ []
        "int").2.ephemeral_types
      (build_type ⟨[], [], 5⟩ ⟨[(FieldLabel.Load, 0)], "top"⟩ [] "int").1 =
      some (CType.Pointer 5) :=
  single_candidate_registered_directly ⟨[], [], 5⟩
    ⟨[(FieldLabel.Load, 0)], "top"⟩ [] "int" (CType.Pointer 5) (by decide)
    (by decide)

/-! ### Claim C9: collect_ctypes is total and covers every node -/

theorem collect_ctypes_go_lookup (g : SketchGraph)
    (l : List (Nat × SketchNode)) :
    ∀ (st : LoweringState) (types : List (Nat × Nat)) (i : Nat),
      ((∃ nd, (i, nd) ∈ l) ∨ (assocLookup types i).isSome = true) →
      (assocLookup (collect_ctypes_go g st types l).1 i).isSome = true := by
  induction l with
  | nil =>
      intro st types i h
      rcases h with ⟨nd, hnd⟩ | h
      · simp at hnd
      · simpa [collect_ctypes_go] using h
  | cons p rest ih =>
      intro st types i h
      obtain ⟨j, nd⟩ := p
      simp only [collect_ctypes_go]
      apply ih
      by_cases hij : i = j
      · subst hij
        right
        simp [assocLookup_insert_self]
      · rcases h with ⟨nd', hnd'⟩ | h
        · rcases List.mem_cons.mp hnd' with h' | h'
          · exact absurd (congrArg Prod.fst h') hij
          · exact Or.inl ⟨nd', h'⟩
        · right
          rwa [assocLookup_insert_ne _ _ _ _ hij]

/-- Claim C9: `collect_ctypes` is infallible — it returns `Ok` on every
sketch graph — and the returned node-to-type map has an entry for every
node index of the graph. -/
theorem collect_ctypes_total (g : SketchGraph) (i : Nat)
    (hi : i < g.nodes.length) :
    ∃ tys eph, collect_ctypes g = Except.ok (tys, eph) ∧
      (assocLookup tys i).isSome = true := by
  refine ⟨_, _, rfl, ?_⟩
  apply collect_ctypes_go_lookup
  left
  refine ⟨g.nodes[i], ?_⟩
  have hzlen : i < ((List.range g.nodes.length).zip g.nodes).length := by
    simp only [List.length_zip, List.length_range]
    omega
  have hith : ((List.range g.nodes.length).zip g.nodes)[i] = (i, g.nodes[i]) := by
    simp [List.getElem_zip]
  rw [← hith]
  exact List.getElem_mem _

/-- Witness for claim C9: on a one-node graph the map resolves node 0. -/
theorem collect_ctypes_total_witness :
    ∃ tys eph,
      collect_ctypes ⟨[⟨[], "int"⟩], [], "int"⟩ = Except.ok (tys, eph) ∧
      (assocLookup tys 0).isSome = true :=
  collect_ctypes_total ⟨[⟨[], "int"⟩], [], "int"⟩ 0 (by decide)

/-! ### Claim C5: no two fields of an emitted structure overlap -/

/-- `f` ends at or before `g` starts (exclusive upper bound of `f` at most
the byte offset of `g`). -/
def fitsBefore (f g : Field) : Prop :=
  compute_fld_upper_bound_exlcusive f ≤ g.byte_offset

instance : IsTrans Field fitsBefore :=
  ⟨fun _ _ _ hfg hgh =>
    Nat.le_trans hfg
      (Nat.le_trans (Nat.le_add_right _ _) hgh)⟩

/-- Two fields overlap when the byte intervals
`[o1, o1 + size1/8)` and `[o2, o2 + size2/8)` intersect. -/
def overlaps (f g : Field) : Prop :=
  ∃ x : Nat,
    (f.byte_offset ≤ x ∧ x < compute_fld_upper_bound_exlcusive f) ∧
    (g.byte_offset ≤ x ∧ x < compute_fld_upper_bound_exlcusive g)

theorem fitsBefore_not_overlaps (f g : Field) (h : fitsBefore f g) :
    ¬ overlaps f g := by
  rintro ⟨x, ⟨-, hxf⟩, ⟨hgx, -⟩⟩
  exact absurd (Nat.lt_of_lt_of_le hxf (Nat.le_trans h hgx))
    (Nat.lt_irrefl x)

theorem schedule_fld_chain (c c' : Classroom) (fld : Field)
    (hc : List.Chain' fitsBefore c.scheduled)
    (h : c.schedule_fld fld = some c') :
    List.Chain' fitsBefore c'.scheduled := by
  unfold Classroom.schedule_fld at h
  by_cases hg : c.get_next_scheduluable_offset > fld.byte_offset
  · simp [hg] at h
  · rw [if_neg hg] at h
    obtain rfl : c' = _ := (Option.some_inj.mp h).symm
    simp only
    rw [List.chain'_append]
    refine ⟨hc, List.chain'_singleton fld, ?_⟩
    intro x hx y hy
    simp only [List.head?_cons, Option.mem_def, Option.some_inj] at hy
    subst hy
    unfold Classroom.get_next_scheduluable_offset at hg
    rw [hx] at hg
    exact Nat.le_of_not_lt hg

theorem popMin_subset (hp : List Classroom) (m : Classroom)
    (rest : List Classroom) (h : popMin hp = some (m, rest)) :
    m ∈ hp ∧ ∀ x ∈ rest, x ∈ hp := by
  induction hp generalizing m rest with
  | nil => simp [popMin] at h
  | cons c tl ih =>
      simp only [popMin] at h
      cases htl : popMin tl with
      | none =>
          rw [htl] at h
          obtain ⟨rfl, rfl⟩ := Prod.mk.injEq _ _ _ _ ▸ Option.some_inj.mp h
          exact ⟨List.mem_cons_self _ _, by simp⟩
      | some p =>
          obtain ⟨m', rest'⟩ := p
          rw [htl] at h
          dsimp only at h
          obtain ⟨hm, hr⟩ := ih m' rest' htl
          by_cases hle :
            c.get_next_scheduluable_offset ≤ m'.get_next_scheduluable_offset
          · rw [if_pos hle] at h
            obtain ⟨rfl, rfl⟩ := Prod.mk.injEq _ _ _ _ ▸ Option.some_inj.mp h
            exact ⟨List.mem_cons_self _ _, fun x hx => List.mem_cons_of_mem _ hx⟩
          · rw [if_neg hle] at h
            obtain ⟨rfl, rfl⟩ := Prod.mk.injEq _ _ _ _ ▸ Option.some_inj.mp h
            refine ⟨List.mem_cons_of_mem _ hm, ?_⟩
            intro x hx
            rcases List.mem_cons.mp hx with hx | hx
            · exact hx ▸ List.mem_cons_self _ _
            · exact List.mem_cons_of_mem _ (hr x hx)

theorem scheduleStep_inv (hp : List Classroom) (fld : Field)
    (hinv : ∀ c ∈ hp, List.Chain' fitsBefore c.scheduled) :
    ∀ c ∈ scheduleStep hp fld, List.Chain' fitsBefore c.scheduled := by
  intro c hc
  unfold scheduleStep at hc
  by_cases hsup : hp.any (fun cls => cls.superscedes_fld fld)
  · rw [if_pos hsup] at hc
    exact hinv c hc
  · rw [if_neg hsup] at hc
    cases hpm : popMin hp with
    | none =>
        rw [hpm] at hc
        dsimp only at hc
        cases hfresh : Classroom.new.schedule_fld fld with
        | none =>
            rw [hfresh] at hc
            exact hinv c hc
        | some fresh =>
            rw [hfresh] at hc
            dsimp only at hc
            rcases List.mem_cons.mp hc with hc | hc
            · subst hc
              exact schedule_fld_chain _ _ _ (by simp [Classroom.new]) hfresh
            · exact hinv c hc
    | some p =>
        obtain ⟨cls, rest⟩ := p
        rw [hpm] at hc
        dsimp only at hc
        obtain ⟨hclsmem, hrest⟩ := popMin_subset hp cls rest hpm
        cases hsch : cls.schedule_fld fld with
        | some cls' =>
            rw [hsch] at hc
            dsimp only at hc
            rcases List.mem_cons.mp hc with hc | hc
            · subst hc
              exact schedule_fld_chain _ _ _ (hinv cls hclsmem) hsch
            · exact hinv c (hrest c hc)
        | none =>
            rw [hsch] at hc
            dsimp only at hc
            cases hfresh : Classroom.new.schedule_fld fld with
            | none =>
                rw [hfresh] at hc
                exact hinv c hc
            | some fresh =>
                rw [hfresh] at hc
                dsimp only at hc
                rcases List.mem_cons.mp hc with hc | hc
                · subst hc
                  exact schedule_fld_chain _ _ _ (by simp [Classroom.new]) hfresh
                · exact hinv c hc

theorem foldl_scheduleStep_inv (fields : List Field) :
    ∀ (hp : List Classroom),
      (∀ c ∈ hp, List.Chain' fitsBefore c.scheduled) →
      ∀ c ∈ fields.foldl scheduleStep hp,
        List.Chain' fitsBefore c.scheduled := by
  induction fields with
  | nil => intro hp hinv; simpa using hinv
  | cons fld rest ih =>
      intro hp hinv
      simp only [List.foldl_cons]
      exact ih _ (scheduleStep_inv hp fld hinv)

/-- Claim C5: within every `Structure` emitted by the field scheduler, no
two fields overlap (the byte intervals `[o, o + size/8)` are pairwise
disjoint). -/
theorem structure_fields_no_overlap (fields : List Field) (l : List Field)
    (hmem : CType.Structure l ∈ schedule_structures fields) :
    l.Pairwise (fun f g => ¬ overlaps f g) := by
  unfold schedule_structures at hmem
  simp only [List.mem_map] at hmem
  obtain ⟨cls, hcls, heq⟩ := hmem
  have hl : cls.scheduled = l := by injection heq
  have hchain := foldl_scheduleStep_inv (sortByOffset fields) [] (by simp)
    cls hcls
  rw [hl] at hchain
  have hpair : l.Pairwise fitsBefore := List.chain'_iff_pairwise.mp hchain
  exact hpair.imp (fun h => fitsBefore_not_overlaps _ _ h)

/-- Witness for claim C5: the two-field structure of scenario S2. -/
theorem structure_fields_no_overlap_witness :
    CType.Structure [⟨0, 32, 1⟩, ⟨4, 32, 2⟩] ∈
      schedule_structures [⟨0, 32, 1⟩, ⟨4, 32, 2⟩] ∧
    ([⟨0, 32, 1⟩, ⟨4, 32, 2⟩] : List Field).Pairwise
      (fun f g => ¬ overlaps f g) :=
  ⟨by decide,
   structure_fields_no_overlap [⟨0, 32, 1⟩, ⟨4, 32, 2⟩] _ (by decide)⟩

/-! ### Claim C4: multi-out return structures -/

/-- The sorted out-parameter list computed by `build_function_types` for a
node's edges, starting from a given state (the in-parameter collection runs
first and threads the state). -/
def outParamsOf (st : LoweringState) (edges : List (FieldLabel × Nat)) :
    List Parameter :=
  sortByIndex (collect_params (collect_params st edges selIn).2 edges selOut).1

theorem insertByIndex_length (p : Parameter) (l : List Parameter) :
    (insertByIndex p l).length = l.length + 1 := by
  induction l with
  | nil => rfl
  | cons q qs ih =>
      by_cases h : q.index ≤ p.index <;> simp [insertByIndex, h, ih]

theorem sortByIndex_length (l : List Parameter) :
    (sortByIndex l).length = l.length := by
  suffices h : ∀ acc : List Parameter,
      (l.foldl (fun acc p => insertByIndex p acc) acc).length =
        acc.length + l.length by
    simpa using h []
  induction l with
  | nil => intro acc; simp
  | cons p ps ih =>
      intro acc
      simp only [List.foldl_cons]
      rw [ih (insertByIndex p acc), insertByIndex_length]
      simp only [List.length_cons]
      omega

theorem build_ret_fields_spec (mp : Nat → Option Nat) (defName : String)
    (args : List Nat) :
    ∀ (st : LoweringState) (curr_off i : Nat), st.WF →
      (build_ret_fields st mp defName curr_off i args).2.WF ∧
      st.Ext (build_ret_fields st mp defName curr_off i args).2 ∧
      (build_ret_fields st mp defName curr_off i args).1.length =
        args.length ∧
      ∀ (j : Nat) (fld : Field),
        (build_ret_fields st mp defName curr_off i args).1[j]? = some fld →
        ∃ a, args[j]? = some a ∧
          fld.byte_offset = curr_off + (args.take j).sum ∧
          fld.bit_sz = 8 * a ∧
          (∀ t, mp (i + j) = some t → fld.type_index = t) ∧
          (mp (i + j) = none →
            assocLookup
              (build_ret_fields st mp defName curr_off i args).2.ephemeral_types
              fld.type_index = some (CType.Primitive defName)) := by
  induction args with
  | nil =>
      intro st curr_off i hwf
      refine ⟨hwf, LoweringState.Ext.refl st, rfl, ?_⟩
      intro j fld hj
      simp [build_ret_fields] at hj
  | cons a rest ih =>
      intro st curr_off i hwf
      have hstep : ∃ tid st1,
          (match mp i with
            | some t => (t, st)
            | none => build_terminal_type st defName) = (tid, st1) ∧
          st1.WF ∧ st.Ext st1 ∧
          (∀ t, mp i = some t → tid = t) ∧
          (mp i = none →
            assocLookup st1.ephemeral_types tid =
              some (CType.Primitive defName)) := by
        cases hmp : mp i with
        | none =>
            obtain ⟨hwf1, hext1, hlook⟩ := build_terminal_type_spec st defName hwf
            exact ⟨_, _, rfl, hwf1, hext1, by simp [hmp], fun _ => hlook⟩
        | some t =>
            refine ⟨t, st, rfl, hwf, LoweringState.Ext.refl st, ?_, by simp⟩
            intro t' ht'
            exact Option.some_inj.mp ht'
      obtain ⟨tid, st1, hstepeq, hwf1, hext1, htids, htidn⟩ := hstep
      obtain ⟨hwf2, hext2, hlen2, hflds⟩ := ih st1 (curr_off + 8 * a / 8) (i + 1) hwf1
      rcases hrec : build_ret_fields st1 mp defName (curr_off + 8 * a / 8)
          (i + 1) rest with ⟨flds, st2⟩
      rw [hrec] at hwf2 hext2 hlen2 hflds
      dsimp only at hwf2 hext2 hlen2 hflds
      have hres : build_ret_fields st mp defName curr_off i (a :: rest) =
          ({ byte_offset := curr_off, bit_sz := 8 * a, type_index := tid } ::
            flds, st2) := by
        simp only [build_ret_fields, hstepeq, hrec]
      rw [hres]
      have h8 : 8 * a / 8 = a := Nat.mul_div_cancel_left a (by norm_num)
      refine ⟨hwf2, hext1.trans hext2, by simp [hlen2], ?_⟩
      intro j fld hj
      cases j with
      | zero =>
          simp only [List.getElem?_cons_zero, Option.some_inj] at hj
          subst hj
          refine ⟨a, by simp, by simp, rfl, ?_, ?_⟩
          · intro t ht
            simpa using htids t (by simpa using ht)
          · intro hnone
            have := htidn (by simpa using hnone)
            exact hext2.2 _ _ this
      | succ j =>
          simp only [List.getElem?_cons_succ] at hj
          obtain ⟨a', ha', hoff, hsz, hsome, hnone⟩ := hflds j fld hj
          refine ⟨a', by simpa using ha', ?_, hsz, ?_, ?_⟩
          · rw [hoff, h8]
            simp only [List.take_succ_cons, List.sum_cons]
            omega
          · intro t ht
            apply hsome
            have : i + 1 + j = i + (j + 1) := by omega
            rw [this]
            exact ht
          · intro ht
            apply hnone
            have : i + 1 + j = i + (j + 1) := by omega
            rw [this]
            exact ht

/-- Claim C4 (amended): (A) `build_return_type_structure` produces a
`Structure` whose `j`-th field sits at the cumulative byte size of the
declared out-locations before it, with bit size `8 ×` the location's byte
size, carrying the computed out-parameter type at index `j` when one exists
and a default-lattice primitive otherwise; (C) when the computed
out-parameters or the declared out-locations number more than one, the
emitted function's `return_ty` is `Some` of that padded structure; (B)
`return_ty = None` only when no out-parameters exist (`None` implies the
computed out-parameter list is empty) — but not conversely, see the
counterexample. -/
theorem multi_out_return_structure :
    (∀ (st : LoweringState) (declared : List Nat) (params : List Parameter)
        (defName : String), st.WF →
      (build_return_type_structure st declared params defName).1 =
        CType.Structure
          (build_ret_fields st (paramMap params) defName 0 0 declared).1 ∧
      (build_ret_fields st (paramMap params) defName 0 0 declared).1.length =
        declared.length ∧
      (∀ (j : Nat) (fld : Field),
        (build_ret_fields st (paramMap params) defName 0 0 declared).1[j]? =
          some fld →
        ∃ a, declared[j]? = some a ∧
          fld.byte_offset = (declared.take j).sum ∧
          fld.bit_sz = 8 * a ∧
          (∀ t, paramMap params j = some t → fld.type_index = t) ∧
          (paramMap params j = none →
            assocLookup
              (build_ret_fields st (paramMap params) defName 0 0
                declared).2.ephemeral_types
              fld.type_index = some (CType.Primitive defName)))) ∧
    (∀ (st : LoweringState) (edges : List (FieldLabel × Nat))
        (declared : List Nat) (defName : String) (ps : List Parameter)
        (r : Option Nat),
      (build_function_types st edges declared defName).1 =
        [CType.Function ps r] →
      ((outParamsOf st edges).length > 1 ∨ declared.length > 1) →
      ∃ sid, r = some sid ∧
        assocLookup
          (build_function_types st edges declared defName).2.ephemeral_types
          sid =
          some (build_return_type_structure
            (collect_params (collect_params st edges selIn).2 edges selOut).2
            declared (outParamsOf st edges) defName).1) ∧
    (∀ (st : LoweringState) (edges : List (FieldLabel × Nat))
        (declared : List Nat) (defName : String) (ps : List Parameter)
        (r : Option Nat),
      (build_function_types st edges declared defName).1 =
        [CType.Function ps r] →
      r = none →
      (collect_params (collect_params st edges selIn).2 edges selOut).1 = []) := by
  refine ⟨?_, ?_, ?_⟩
  · intro st declared params defName hwf
    obtain ⟨-, -, hlen, hflds⟩ :=
      build_ret_fields_spec (paramMap params) defName declared st 0 0 hwf
    refine ⟨?_, hlen, ?_⟩
    · rcases hb : build_ret_fields st (paramMap params) defName 0 0 declared
        with ⟨flds, st'⟩
      simp only [build_return_type_structure, hb]
    · intro j fld hj
      obtain ⟨a, ha, hoff, hsz, hs, hn⟩ := hflds j fld hj
      refine ⟨a, ha, by simpa using hoff, hsz, ?_, ?_⟩
      · intro t ht
        exact hs t (by simpa using ht)
      · intro ht
        exact hn (by simpa using ht)
  · intro st edges declared defName ps r hfts hgt
    rcases hin : collect_params st edges selIn with ⟨in_params, st1⟩
    rcases hout : collect_params st1 edges selOut with ⟨out0, st2⟩
    have houtp : outParamsOf st edges = sortByIndex out0 := by
      simp only [outParamsOf, hin, hout]
    rw [houtp] at hgt
    have hguard :
        (decide ((sortByIndex out0).length > 1) ||
          decide (declared.length > 1)) = true := by
      rcases hgt with h | h <;> simp [h]
    rcases hrts : build_return_type_structure st2 declared (sortByIndex out0)
        defName with ⟨rs, st'⟩
    rw [build_function_types, hin] at hfts
    dsimp only at hfts
    rw [hout] at hfts
    dsimp only at hfts
    rw [hguard, hrts] at hfts
    simp only [eq_self_iff_true, if_true] at hfts
    rw [build_function_types, hin]
    dsimp only
    rw [hout]
    dsimp only
    rw [hguard, hrts, houtp, hrts]
    simp only [eq_self_iff_true, if_true]
    by_cases hne : (!in_params.isEmpty || !(sortByIndex out0).isEmpty) = true
    · rw [if_pos hne] at hfts ⊢
      dsimp only at hfts ⊢
      have hfn : CType.Function in_params (some (add_type st' rs).1) =
          CType.Function ps r := (List.cons_eq_cons.mp hfts).1
      have hr : r = some (add_type st' rs).1 := by
        injection hfn with h1 h2
        exact h2.symm
      refine ⟨(add_type st' rs).1, hr, ?_⟩
      simp only [add_type]
      exact assocLookup_insert_self _ _ _
    · rw [if_neg hne] at hfts
      exact absurd hfts (by simp)
  · intro st edges declared defName ps r hfts hr
    subst hr
    rcases hin : collect_params st edges selIn with ⟨in_params, st1⟩
    rcases hout : collect_params st1 edges selOut with ⟨out0, st2⟩
    rw [build_function_types, hin] at hfts
    dsimp only at hfts
    rw [hout] at hfts
    dsimp only at hfts
    dsimp only
    by_cases hguard :
        (decide ((sortByIndex out0).length > 1) ||
          decide (declared.length > 1)) = true
    · rw [hguard] at hfts
      rcases hrts : build_return_type_structure st2 declared
          (sortByIndex out0) defName with ⟨rs, st'⟩
      rw [hrts] at hfts
      simp only [eq_self_iff_true, if_true] at hfts
      by_cases hne : (!in_params.isEmpty || !(sortByIndex out0).isEmpty) = true
      · rw [if_pos hne] at hfts
        dsimp only at hfts
        have hfn : CType.Function in_params (some (add_type st' rs).1) =
            CType.Function ps none := (List.cons_eq_cons.mp hfts).1
        injection hfn with h1 h2
        exact absurd h2 (by simp)
      · rw [if_neg hne] at hfts
        exact absurd hfts (by simp)
    · rw [Bool.not_eq_true] at hguard
      rw [hguard] at hfts
      simp only [Bool.false_eq_true, if_false] at hfts
      by_cases hne : (!in_params.isEmpty || !(sortByIndex out0).isEmpty) = true
      · rw [if_pos hne] at hfts
        dsimp only at hfts
        have hfn : CType.Function in_params
            (((sortByIndex out0).get? 0).map (fun p => p.type_index)) =
            CType.Function ps none := (List.cons_eq_cons.mp hfts).1
        injection hfn with h1 h2
        have hget : (sortByIndex out0).get? 0 = none := by
          cases hg : (sortByIndex out0).get? 0 with
          | none => rfl
          | some p => rw [hg] at h2; simp at h2
        have hnil : sortByIndex out0 = [] := by
          cases hs : sortByIndex out0 with
          | nil => rfl
          | cons q qs => rw [hs] at hget; simp [List.get?] at hget
        have := sortByIndex_length out0
        rw [hnil] at this
        simpa using (List.length_eq_zero.mp this.symm)
      · rw [if_neg hne] at hfts
        exact absurd hfts (by simp)

/-- Claim C4 counterexample: a node with a single `In(0)` edge, no `Out`
edges (so the computed out-parameter list is empty) and two declared formal
out-locations still gets `return_ty = Some 12` (the padded return
structure), refuting "return_ty = None exactly when no out-parameters
exist". -/
theorem return_some_without_out_params :
    (collect_params
        (collect_params ⟨[], [], 10⟩ [(FieldLabel.In 0, 3)] selIn).2
        [(FieldLabel.In 0, 3)] selOut).1 = [] ∧
    (build_function_types ⟨[], [], 10⟩ [(FieldLabel.In 0, 3)] [4, 4]
        "int").1 = [CType.Function [⟨0, 10⟩] (some 12)] := by
  constructor <;> rfl

/-- Witness for claim C4 (amended): on two declared 4-byte out-locations
with no computed out-parameters, field 1 of the padded return structure
sits at byte offset 4 (= the 4 bytes of location 0), has bit size 32, and
its type id resolves to the default primitive. -/
theorem multi_out_return_structure_witness :
    LoweringState.WF ⟨[], [], 10⟩ ∧
    (build_ret_fields ⟨[], [], 10⟩ (paramMap []) "int" 0 0 [4, 4]).1[1]? =
      some ⟨4, 32, 10⟩ ∧
    assocLookup
      (build_ret_fields ⟨[], [], 10⟩ (paramMap []) "int" 0 0
        [4, 4]).2.ephemeral_types 10 = some (CType.Primitive "int") := by
  have hwf : LoweringState.WF ⟨[], [], 10⟩ := by
    constructor <;> intro p hp <;> simp at hp
  refine ⟨hwf, by rfl, ?_⟩
  obtain ⟨-, -, hfld⟩ :=
    multi_out_return_structure.1 ⟨[], [], 10⟩ [4, 4] [] "int" hwf
  obtain ⟨a, -, -, -, -, hnone⟩ := hfld 1 ⟨4, 32, 10⟩ (by rfl)
  exact hnone (by rfl)

end BinTypeInf
